import Mathlib

/-!
Verification of the turbidity-grid builder (`tlgrid.py`).

The script builds a monthly Linke-turbidity grid over a regular
latitude/longitude mesh, quantizes each value to `uint8` with a fixed
linear scale, and serializes metadata plus the month-major byte volume
into a fixed little-endian binary format ("TLB2").

Embedding conventions:
* Python/numpy floating-point values are modelled by `ℚ`; the claims
  settled here only involve values on which binary64 arithmetic is exact
  or rounds identically.
* Non-finite floats (needed for the quantizer's behaviour on ±∞ and NaN)
  are modelled by the extended type `FVal`.
* A `float32` metadata field is carried as its 4-byte bit pattern
  (a natural number below `2^32`), since the claims about the binary
  format only concern the bytes of the encoding.
* Python exceptions become `Except` values; `struct.pack` field-width
  errors become the `EncErr` error type.
-/

namespace TLGrid

/-! ## Configuration constants (the `--- CONFIG ---` block) -/

def LAT_MIN : ℚ := -65
def LAT_MAX : ℚ := 65
def DLAT : ℚ := 1
def LON_MIN : ℚ := -180
def LON_MAX : ℚ := 180
def DLON : ℚ := 1
def SCALE : ℚ := 20

/-! ## Rounding

Python's built-in `round` and numpy's `np.rint` both round
half-to-even (banker's rounding). -/

/-- Round half-to-even, the rounding used by Python `round` and `np.rint`. -/
def roundHalfEven (q : ℚ) : ℤ :=
  let f := ⌊q⌋
  if q - f < 1/2 then f
  else if 1/2 < q - f then f + 1
  else if f % 2 = 0 then f else f + 1

/-! ## Grid geometry -/

/-- Model of `np.linspace a b n` (with `endpoint=True`): `n` evenly spaced samples
from `a` to `b`.  For `n = 1` numpy returns `[a]`; our formula agrees since
`ℚ`-division by zero is zero. -/
def linspace (a b : ℚ) (n : ℕ) : List ℚ :=
  (List.range n).map fun (k : ℕ) => a + (k : ℚ) * ((b - a) / ((n : ℚ) - 1))

/-- The source's `centers(vmin, vmax, dv)`: `n = int(round((vmax - vmin)/dv))`
followed by `np.linspace(vmin + dv/2, vmax - dv/2, n)`.  `np.linspace` raises
`ValueError` on a negative sample count (modelled by `none`); a zero count
yields an empty array. -/
def centers (vmin vmax dv : ℚ) : Option (List ℚ × ℤ) :=
  let n := roundHalfEven ((vmax - vmin) / dv)
  if n < 0 then none
  else some (linspace (vmin + dv/2) (vmax - dv/2) n.toNat, n)

/-! ### Basic facts about `roundHalfEven` -/

lemma roundHalfEven_intCast (z : ℤ) : roundHalfEven (z : ℚ) = z := by
  simp [roundHalfEven]

lemma roundHalfEven_ge_floor (q : ℚ) : ⌊q⌋ ≤ roundHalfEven q := by
  unfold roundHalfEven
  dsimp only
  split
  · exact le_refl _
  · split
    · exact le_of_lt (lt_add_one _)
    · split
      · exact le_refl _
      · exact le_of_lt (lt_add_one _)

lemma roundHalfEven_le_floor_add_one (q : ℚ) : roundHalfEven q ≤ ⌊q⌋ + 1 := by
  unfold roundHalfEven
  dsimp only
  split
  · exact le_of_lt (lt_add_one _)
  · split
    · exact le_refl _
    · split
      · exact le_of_lt (lt_add_one _)
      · exact le_refl _

/-- A lower integer bound on the argument bounds the rounded value. -/
lemma le_roundHalfEven {a : ℤ} {q : ℚ} (h : (a : ℚ) ≤ q) : a ≤ roundHalfEven q := by
  have : a ≤ ⌊q⌋ := Int.le_floor.mpr h
  exact le_trans this (roundHalfEven_ge_floor q)

/-- An upper integer bound on the argument bounds the rounded value. -/
lemma roundHalfEven_le {a : ℤ} {q : ℚ} (h : q ≤ (a : ℚ)) : roundHalfEven q ≤ a := by
  have hf : ⌊q⌋ ≤ a := by
    have := Int.floor_le_floor h
    simpa using this
  rcases lt_or_eq_of_le hf with hlt | heq
  · exact le_trans (roundHalfEven_le_floor_add_one q) (by omega)
  · -- the floor already equals the bound, so the fractional part is ≤ 0
    have hq : q - (⌊q⌋ : ℚ) ≤ 0 := by
      rw [heq]
      linarith
    unfold roundHalfEven
    dsimp only
    rw [if_pos (by linarith)]
    exact hf

example : roundHalfEven (5/2 : ℚ) = 2 := by norm_num [roundHalfEven]
example : roundHalfEven (-5/2 : ℚ) = -2 := by norm_num [roundHalfEven]
example : roundHalfEven (2/5 : ℚ) = 0 := by norm_num [roundHalfEven]
example : roundHalfEven (307/5 : ℚ) = 61 := by norm_num [roundHalfEven]

/-! ### Facts about `linspace` and `centers` -/

lemma linspace_length (a b : ℚ) (n : ℕ) : (linspace a b n).length = n := by
  simp [linspace]

lemma linspace_getElem (a b : ℚ) {n k : ℕ} (hk : k < n) :
    (linspace a b n)[k]? = some (a + k * ((b - a) / ((n : ℚ) - 1))) := by
  simp [linspace, hk]

/-- When the endpoints are `n-1` steps apart, `linspace` is the arithmetic
progression with common difference `dv` (including the degenerate `n = 1`
case, where numpy returns just the start point). -/
lemma linspace_arith (a dv : ℚ) (n : ℕ) :
    linspace a (a + ((n : ℚ) - 1) * dv) n =
      (List.range n).map fun (k : ℕ) => a + (k : ℚ) * dv := by
  unfold linspace
  apply List.map_congr_left
  intro k hk
  have hk' : k < n := List.mem_range.mp hk
  rcases Nat.lt_or_ge n 2 with h2 | h2
  · -- n = 1 (n = 0 has no members), so k = 0 and both sides are `a`
    interval_cases n
    · omega
    · interval_cases k
      simp
  · have hne : ((n : ℚ) - 1) ≠ 0 := by
      have : (2 : ℚ) ≤ (n : ℚ) := by exact_mod_cast h2
      intro hc
      nlinarith
    rw [add_sub_cancel_left, mul_div_cancel_left₀ _ hne]

/-- Evaluation of `centers` on an axis whose extent is exactly `n` steps: the result is the
arithmetic progression of the `n` cell centers. -/
lemma centers_eq (vmin vmax dv : ℚ) (n : ℕ) (h1 : 1 ≤ n)
    (h2 : vmax - vmin = n * dv) (hdv : dv ≠ 0) :
    centers vmin vmax dv =
      some ((List.range n).map (fun (k : ℕ) => vmin + dv/2 + (k : ℚ) * dv), (n : ℤ)) := by
  have hratio : (vmax - vmin) / dv = (n : ℚ) := by
    rw [h2, mul_div_cancel_right₀ _ hdv]
  have hround : roundHalfEven ((vmax - vmin) / dv) = (n : ℤ) := by
    rw [hratio]
    exact_mod_cast roundHalfEven_intCast (n : ℤ)
  have hb : vmax - dv/2 = (vmin + dv/2) + ((n : ℚ) - 1) * dv := by
    have : vmax = vmin + (n : ℚ) * dv := by linarith
    rw [this]; ring
  unfold centers
  rw [hround]
  rw [if_neg (by omega)]
  rw [Int.toNat_natCast, hb, linspace_arith]

/-- Indexing into the arithmetic-progression list of cell centers. -/
lemma prog_getElem (c dv : ℚ) {n k : ℕ} (hk : k < n) :
    ((List.range n).map (fun (k : ℕ) => c + (k : ℚ) * dv))[k]? = some (c + (k : ℚ) * dv) := by
  rw [List.getElem?_map, List.getElem?_range hk]
  rfl

lemma prog_head (c dv : ℚ) {n : ℕ} (h1 : 1 ≤ n) :
    ((List.range n).map (fun (k : ℕ) => c + (k : ℚ) * dv)).head? = some c := by
  have h0 : (0 : ℕ) < n := h1
  rw [List.head?_eq_getElem?, prog_getElem c dv h0]
  norm_num

lemma prog_getLast (c dv : ℚ) {n : ℕ} (h1 : 1 ≤ n) :
    ((List.range n).map (fun (k : ℕ) => c + (k : ℚ) * dv)).getLast? =
      some (c + ((n : ℚ) - 1) * dv) := by
  have hl : ((List.range n).map (fun (k : ℕ) => c + (k : ℚ) * dv)).length = n := by
    simp
  have hk : n - 1 < n := by omega
  rw [List.getLast?_eq_getElem?, hl, prog_getElem c dv hk]
  congr 2
  have : ((n - 1 : ℕ) : ℚ) = (n : ℚ) - 1 := by
    have : (1 : ℕ) ≤ n := h1
    push_cast [this]
    ring
  rw [this]

/-- Consecutive cell centers differ by exactly the step. -/
lemma prog_chain_step (c dv : ℚ) (n : ℕ) :
    List.Chain' (fun x y => y - x = dv)
      ((List.range n).map (fun (k : ℕ) => c + (k : ℚ) * dv)) := by
  rw [List.chain'_map]
  cases n with
  | zero => simp
  | succ m =>
      rw [List.chain'_range_succ]
      intro k _
      push_cast
      ring

/-- The cell centers are strictly increasing for a positive step. -/
lemma prog_chain_lt (c dv : ℚ) (n : ℕ) (hdv : 0 < dv) :
    List.Chain' (· < ·) ((List.range n).map (fun (k : ℕ) => c + (k : ℚ) * dv)) := by
  rw [List.chain'_map]
  cases n with
  | zero => simp
  | succ m =>
      rw [List.chain'_range_succ]
      intro k _
      have : ((k : ℚ)) < (k : ℚ) + 1 := by linarith
      push_cast
      nlinarith

/-! ## Quantizer

The source computes `np.rint(np.clip(tl * SCALE, 0, 255)).astype(np.uint8)`.
`np.clip(x, lo, hi)` is `min(max(x, lo), hi)`; `np.rint` rounds
half-to-even; the `uint8` cast reduces the (already in-range) integer
modulo `2^8`. -/

/-- Model of `np.clip(x, 0, 255)`. -/
def clip255 (x : ℚ) : ℚ := min (max x 0) 255

/-- The quantization of one finite turbidity value, from `build_grid`:
`np.rint(np.clip(v * SCALE, 0, 255)).astype(np.uint8)`. -/
def quantize (v : ℚ) : ℕ := (roundHalfEven (clip255 (v * SCALE))).toNat % 256

/-- The quantizer as the spec words it: "`round(clip(value * scale, 0, 255))`,
rounding half-to-even, with the clip applied to the scaled float before
rounding". -/
def quantize_spec (v scale : ℚ) : ℤ := roundHalfEven (min (max (v * scale) 0) 255)

lemma roundHalfEven_clip_nonneg (x : ℚ) : 0 ≤ roundHalfEven (clip255 x) := by
  apply le_roundHalfEven (a := 0)
  simp [clip255]

lemma roundHalfEven_clip_le (x : ℚ) : roundHalfEven (clip255 x) ≤ 255 := by
  apply roundHalfEven_le (a := 255)
  simp [clip255]

lemma quantize_eq_spec (v : ℚ) : (quantize v : ℤ) = quantize_spec v 20 := by
  have h0 := roundHalfEven_clip_nonneg (v * SCALE)
  have h255 := roundHalfEven_clip_le (v * SCALE)
  unfold quantize quantize_spec
  rw [Nat.mod_eq_of_lt (by omega), Int.toNat_of_nonneg h0]
  rfl

/-! ## Quantizer on non-finite inputs

`build_grid` applies the quantization pipeline to whatever floats the
collaborator returns, including non-finite ones.  `FVal` extends `ℚ` with
the IEEE special values.  `np.clip(±∞, 0, 255)` saturates to the bounds and
propagates NaN; the final `uint8` cast of a non-finite float (or any value
outside the convertible range) is platform-dependent in numpy, modelled as
`none`. -/

inductive FVal where
  | fin (q : ℚ)
  | inf
  | ninf
  | nan
deriving DecidableEq

/-- Scaling `tl * SCALE` on an extended float (the scale 20 is positive). -/
def fvalScale (v : FVal) : FVal :=
  match v with
  | .fin q => .fin (q * SCALE)
  | .inf => .inf
  | .ninf => .ninf
  | .nan => .nan

/-- Model of `np.clip(x, 0, 255)` on an extended float: `min(max(x, 0), 255)`,
saturating the infinities and propagating NaN. -/
def fvalClip255 (v : FVal) : FVal :=
  match v with
  | .fin q => .fin (clip255 q)
  | .inf => .fin 255
  | .ninf => .fin 0
  | .nan => .nan

/-- Model of `np.rint` on an extended float. -/
def fvalRint (v : FVal) : FVal :=
  match v with
  | .fin q => .fin ((roundHalfEven q : ℤ) : ℚ)
  | .inf => .inf
  | .ninf => .ninf
  | .nan => .nan

/-- Model of `.astype(np.uint8)` on an extended float: truncation toward zero, which
is defined (C semantics) exactly for finite values in `(-1, 256)`; anything
else is platform-dependent, modelled as `none`. -/
def fvalCastU8 (v : FVal) : Option ℕ :=
  match v with
  | .fin q => if -1 < q ∧ q < 256 then some (Int.toNat ⌊q⌋) else none
  | _ => none

/-- The full pipeline of `build_grid` line 47 on one extended-float value:
`np.rint(np.clip(tl * SCALE, 0, 255)).astype(np.uint8)`. -/
def quantizeF (v : FVal) : Option ℕ :=
  fvalCastU8 (fvalRint (fvalClip255 (fvalScale v)))

/-- On finite values the extended pipeline agrees with `quantize`. -/
lemma quantizeF_fin (q : ℚ) : quantizeF (.fin q) = some (quantize q) := by
  have h0 := roundHalfEven_clip_nonneg (q * SCALE)
  have h255 := roundHalfEven_clip_le (q * SCALE)
  have hc0 : (0 : ℚ) ≤ ((roundHalfEven (clip255 (q * SCALE)) : ℤ) : ℚ) := by
    exact_mod_cast h0
  have hc255 : ((roundHalfEven (clip255 (q * SCALE)) : ℤ) : ℚ) ≤ 255 := by
    exact_mod_cast h255
  simp only [quantizeF, fvalScale, fvalClip255, fvalRint, fvalCastU8, quantize]
  rw [if_pos ⟨by linarith, by linarith⟩, Int.floor_intCast, Nat.mod_eq_of_lt (by omega)]

/-! ## Climatology Sampler (`lt_lookup`)

Python exceptions are modelled by `PyErr`: `TypeError` (how Python signals
an argument-signature mismatch) versus any other exception, the latter
carrying a code so that "propagates unchanged" is meaningful.  The
collaborator's two call shapes are modelled by the outcomes each one would
produce, `kw` for the keyword-style call and `pos` for the
positional-style call. -/

inductive PyErr where
  | typeError : PyErr
  | other : ℕ → PyErr
deriving DecidableEq

/-- The source's `lt_lookup`: try the keyword-style call; retry with the
positional style exactly when the first call raises `TypeError`; every
other exception propagates. -/
def lt_lookup {α : Type} (kw pos : Except PyErr α) : Except PyErr α :=
  match kw with
  | .error .typeError => pos
  | r => r

/-! ## Binary encoder (`write_bin`)

Bytes are natural numbers below 256.  A `float32` metadata field is
carried as its 4-byte bit pattern (`< 2^32`), since the claims concern the
bytes of the little-endian encoding, not float arithmetic.  `struct.pack`
raises when a value does not fit the requested field width; that is the
spec's `EncodingOverflow`.  The header is fully assembled before the file
is opened, so an overflow happens before any byte is written. -/

inductive EncErr where
  | encodingOverflow : EncErr
deriving DecidableEq

/-- The metadata dict built by `build_grid` (float fields as bit patterns). -/
structure GridMeta where
  nlat : ℕ
  nlon : ℕ
  scale : ℕ
  lat0bits : ℕ
  lon0bits : ℕ
  dlatbits : ℕ
  dlonbits : ℕ
deriving DecidableEq

/-- Model of `struct.pack` with format `<H`: two little-endian bytes, or an overflow error. -/
def pack_u16 (v : ℕ) : Except EncErr (List ℕ) :=
  if v < 65536 then .ok [v % 256, v / 256] else .error .encodingOverflow

/-- Model of `struct.pack` with format `<B`: one byte, or an overflow error. -/
def pack_u8 (v : ℕ) : Except EncErr (List ℕ) :=
  if v < 256 then .ok [v] else .error .encodingOverflow

/-- Model of `struct.pack` with format `<f`: the 4 little-endian bytes of the float32 bit
pattern. -/
def pack_f32le (bits : ℕ) : List ℕ :=
  [bits % 256, bits / 256 % 256, bits / 65536 % 256, bits / 16777216 % 256]

/-- ASCII bytes of the magic `b"TLB2"`. -/
def magicBytes : List ℕ := [84, 76, 66, 50]

/-- The source's `write_bin`: magic, version 2, `nlat`, `nlon`, `scale`,
reserved 0, the four float32 fields, then the payload
(`arr.tobytes(order="C")`). -/
def write_bin (meta : GridMeta) (payload : List ℕ) : Except EncErr (List ℕ) := do
  let ver ← pack_u16 2
  let bnlat ← pack_u16 meta.nlat
  let bnlon ← pack_u16 meta.nlon
  let bscale ← pack_u8 meta.scale
  let brsv ← pack_u8 0
  pure (magicBytes ++ ver ++ bnlat ++ bnlon ++ bscale ++ brsv
    ++ pack_f32le meta.lat0bits ++ pack_f32le meta.lon0bits
    ++ pack_f32le meta.dlatbits ++ pack_f32le meta.dlonbits ++ payload)

/-- Model of `arr.tobytes(order="C")` for the `(12, nlat, nlon)` volume `vol`:
month-major, then latitude, then longitude. -/
def payloadBytes (nlat nlon : ℕ) (vol : ℕ → ℕ → ℕ → ℕ) : List ℕ :=
  (List.range 12).flatMap fun m =>
    (List.range nlat).flatMap fun i =>
      (List.range nlon).map fun j => vol m i j

/-- The volume entry `build_grid` stores at `(m, i, j)`: the quantization of
the collaborator's value for month `m` at the `i`-th latitude and `j`-th
longitude cell center. -/
def volumeOf (sample : ℕ → ℚ → ℚ → ℚ) (lats lons : List ℚ) (m i j : ℕ) : ℕ :=
  quantize (sample m (lats.getD i 0) (lons.getD j 0))

/-! ### Indexing the flattened volume -/

lemma flatMap_range_length {f : ℕ → List ℕ} {L : ℕ} (hL : ∀ x, (f x).length = L) :
    ∀ n : ℕ, ((List.range n).flatMap f).length = n * L := by
  intro n
  induction n with
  | zero => simp
  | succ m ih =>
      rw [List.range_succ, List.flatMap_append, List.length_append, ih]
      simp [hL]
      ring

lemma flatMap_range_getElem {f : ℕ → List ℕ} {L : ℕ} (hL : ∀ x, (f x).length = L) :
    ∀ n q r : ℕ, q < n → r < L → ((List.range n).flatMap f)[q * L + r]? = (f q)[r]? := by
  intro n
  induction n with
  | zero => omega
  | succ m ih =>
      intro q r hq hr
      rw [List.range_succ, List.flatMap_append]
      rcases Nat.lt_or_ge q m with hqm | hqm
      · rw [List.getElem?_append_left, ih q r hqm hr]
        rw [flatMap_range_length hL]
        have : q * L + L ≤ m * L := by
          have : (q + 1) * L ≤ m * L := Nat.mul_le_mul_right L hqm
          nlinarith
        omega
      · have hq' : q = m := by omega
        subst hq'
        rw [List.getElem?_append_right (by rw [flatMap_range_length hL]; omega)]
        rw [flatMap_range_length hL]
        simp [Nat.add_sub_cancel_left]

/-- Byte `m*(nlat*nlon) + i*nlon + j` of the C-order byte dump is the volume
entry at `(m, i, j)`. -/
lemma payloadBytes_getElem (nlat nlon : ℕ) (vol : ℕ → ℕ → ℕ → ℕ)
    {m i j : ℕ} (hm : m < 12) (hi : i < nlat) (hj : j < nlon) :
    (payloadBytes nlat nlon vol)[m * (nlat * nlon) + i * nlon + j]? = some (vol m i j) := by
  unfold payloadBytes
  have hrow : ∀ x, ((List.range nlon).map fun j => vol m x j).length = nlon := by
    intro x
    simp
  have hplane : ∀ x : ℕ,
      ((List.range nlat).flatMap fun i => (List.range nlon).map fun j => vol x i j).length
        = nlat * nlon := by
    intro x
    exact flatMap_range_length (by intro y; simp) nlat
  have houter := flatMap_range_getElem (f := fun x =>
      (List.range nlat).flatMap fun i => (List.range nlon).map fun j => vol x i j)
    (L := nlat * nlon) hplane 12 m (i * nlon + j) hm (by nlinarith)
  rw [Nat.add_assoc, houter]
  have hinner := flatMap_range_getElem (f := fun x => (List.range nlon).map fun j => vol m x j)
    (L := nlon) (by intro y; simp) nlat i j hi hj
  rw [hinner, List.getElem?_map, List.getElem?_range hj]
  rfl

/-! ### The successful header, byte for byte -/

/-- The 28 header bytes produced by `write_bin` when every field fits. -/
def headerList (meta : GridMeta) : List ℕ :=
  [84, 76, 66, 50, 2, 0,
   meta.nlat % 256, meta.nlat / 256, meta.nlon % 256, meta.nlon / 256,
   meta.scale, 0,
   meta.lat0bits % 256, meta.lat0bits / 256 % 256,
   meta.lat0bits / 65536 % 256, meta.lat0bits / 16777216 % 256,
   meta.lon0bits % 256, meta.lon0bits / 256 % 256,
   meta.lon0bits / 65536 % 256, meta.lon0bits / 16777216 % 256,
   meta.dlatbits % 256, meta.dlatbits / 256 % 256,
   meta.dlatbits / 65536 % 256, meta.dlatbits / 16777216 % 256,
   meta.dlonbits % 256, meta.dlonbits / 256 % 256,
   meta.dlonbits / 65536 % 256, meta.dlonbits / 16777216 % 256]

lemma headerList_length (meta : GridMeta) : (headerList meta).length = 28 := by
  simp [headerList]

lemma write_bin_ok (meta : GridMeta) (payload : List ℕ)
    (h1 : meta.nlat < 65536) (h2 : meta.nlon < 65536) (h3 : meta.scale < 256) :
    write_bin meta payload = .ok (headerList meta ++ payload) := by
  simp only [write_bin, pack_u16, pack_u8, pack_f32le, magicBytes,
    if_pos h1, if_pos h2, if_pos h3]
  rfl

lemma write_bin_error (meta : GridMeta) (payload : List ℕ)
    (h : ¬(meta.nlat < 65536 ∧ meta.nlon < 65536 ∧ meta.scale < 256)) :
    write_bin meta payload = .error .encodingOverflow := by
  simp only [write_bin, pack_u16, pack_u8]
  by_cases h1 : meta.nlat < 65536
  · by_cases h2 : meta.nlon < 65536
    · have h3 : ¬ meta.scale < 256 := by tauto
      rw [if_pos h1, if_pos h2, if_neg h3]
      rfl
    · rw [if_pos h1, if_neg h2]
      rfl
  · rw [if_neg h1]
    rfl

/-! ## A reader for the §6 table

The source ships no decoder; the spec's §6 byte table is the compatibility
contract "any reader built independently must reproduce".  `decode_bin`
is that reader, written from the table: it checks magic and version, then
reads each field at its fixed offset and the `12 * nlat * nlon` payload
bytes from offset 28. -/

/-- Read a little-endian `uint16` at byte offset `off`. -/
def rdU16 (bs : List ℕ) (off : ℕ) : ℕ := bs.getD off 0 + 256 * bs.getD (off+1) 0

/-- Read a little-endian 4-byte field at byte offset `off`. -/
def rdU32 (bs : List ℕ) (off : ℕ) : ℕ :=
  bs.getD off 0 + 256 * bs.getD (off+1) 0
    + 65536 * bs.getD (off+2) 0 + 16777216 * bs.getD (off+3) 0

/-- Decoder following the §6 table. -/
def decode_bin (bs : List ℕ) : Option (GridMeta × List ℕ) :=
  if bs.take 4 = magicBytes ∧ rdU16 bs 4 = 2 then
    let nlat := rdU16 bs 6
    let nlon := rdU16 bs 8
    some ({ nlat := nlat, nlon := nlon, scale := bs.getD 10 0,
            lat0bits := rdU32 bs 12, lon0bits := rdU32 bs 16,
            dlatbits := rdU32 bs 20, dlonbits := rdU32 bs 24 },
          (bs.drop 28).take (12 * (nlat * nlon)))
  else none

lemma decode_headerList (meta : GridMeta) (payload : List ℕ)
    (h1 : meta.nlat < 65536) (h2 : meta.nlon < 65536) (h3 : meta.scale < 256)
    (h4 : meta.lat0bits < 4294967296) (h5 : meta.lon0bits < 4294967296)
    (h6 : meta.dlatbits < 4294967296) (h7 : meta.dlonbits < 4294967296)
    (hlen : payload.length = 12 * (meta.nlat * meta.nlon)) :
    decode_bin (headerList meta ++ payload) = some (meta, payload) := by
  obtain ⟨nlat, nlon, scale, lat0, lon0, dlat, dlon⟩ := meta
  simp only at h1 h2 h3 h4 h5 h6 h7 hlen
  have hnlat : rdU16 (headerList ⟨nlat, nlon, scale, lat0, lon0, dlat, dlon⟩ ++ payload) 6
      = nlat := by
    show nlat % 256 + 256 * (nlat / 256) = nlat
    omega
  have hnlon : rdU16 (headerList ⟨nlat, nlon, scale, lat0, lon0, dlat, dlon⟩ ++ payload) 8
      = nlon := by
    show nlon % 256 + 256 * (nlon / 256) = nlon
    omega
  have hlat0 : rdU32 (headerList ⟨nlat, nlon, scale, lat0, lon0, dlat, dlon⟩ ++ payload) 12
      = lat0 := by
    show lat0 % 256 + 256 * (lat0 / 256 % 256) + 65536 * (lat0 / 65536 % 256)
      + 16777216 * (lat0 / 16777216 % 256) = lat0
    omega
  have hlon0 : rdU32 (headerList ⟨nlat, nlon, scale, lat0, lon0, dlat, dlon⟩ ++ payload) 16
      = lon0 := by
    show lon0 % 256 + 256 * (lon0 / 256 % 256) + 65536 * (lon0 / 65536 % 256)
      + 16777216 * (lon0 / 16777216 % 256) = lon0
    omega
  have hdlat : rdU32 (headerList ⟨nlat, nlon, scale, lat0, lon0, dlat, dlon⟩ ++ payload) 20
      = dlat := by
    show dlat % 256 + 256 * (dlat / 256 % 256) + 65536 * (dlat / 65536 % 256)
      + 16777216 * (dlat / 16777216 % 256) = dlat
    omega
  have hdlon : rdU32 (headerList ⟨nlat, nlon, scale, lat0, lon0, dlat, dlon⟩ ++ payload) 24
      = dlon := by
    show dlon % 256 + 256 * (dlon / 256 % 256) + 65536 * (dlon / 65536 % 256)
      + 16777216 * (dlon / 16777216 % 256) = dlon
    omega
  have hdrop : (headerList ⟨nlat, nlon, scale, lat0, lon0, dlat, dlon⟩ ++ payload).drop 28
      = payload := rfl
  unfold decode_bin
  rw [if_pos ⟨rfl, rfl⟩]
  dsimp only
  rw [hnlat, hnlon, hlat0, hlon0, hdlat, hdlon, hdrop, ← hlen, List.take_length]
  rfl

/-! ## Claims -/

/-- C2: for every finite value `v` (scale fixed at 20), the quantized byte
equals round-half-to-even of `clip(v * 20, 0, 255)` — the clip applied to
the scaled value before rounding — the result always lies in `[0, 255]`,
and concretely `3.07 ↦ 61`, `13.0 ↦ 255`, `-1.0 ↦ 0`. -/
theorem claim_C2_quantizer :
    (∀ v : ℚ, (quantize v : ℤ) = quantize_spec v 20 ∧ quantize v ≤ 255)
    ∧ quantize (307/100) = 61 ∧ quantize 13 = 255 ∧ quantize (-1) = 0 := by
  refine ⟨fun v => ⟨quantize_eq_spec v, ?_⟩, ?_, ?_, ?_⟩
  · have h0 := roundHalfEven_clip_nonneg (v * SCALE)
    have h255 := roundHalfEven_clip_le (v * SCALE)
    unfold quantize
    omega
  · have : roundHalfEven (clip255 ((307/100 : ℚ) * SCALE)) = 61 := by
      norm_num [clip255, SCALE, min_def, max_def, roundHalfEven]
    unfold quantize
    rw [this]
    rfl
  · have : roundHalfEven (clip255 ((13 : ℚ) * SCALE)) = 255 := by
      norm_num [clip255, SCALE, min_def, max_def, roundHalfEven]
    unfold quantize
    rw [this]
    rfl
  · have : roundHalfEven (clip255 ((-1 : ℚ) * SCALE)) = 0 := by
      norm_num [clip255, SCALE, min_def, max_def, roundHalfEven]
    unfold quantize
    rw [this]
    rfl

/-- For `n ≥ 2` samples, `linspace` hits its upper endpoint exactly. -/
lemma linspace_getLast (a b : ℚ) {n : ℕ} (h2 : 2 ≤ n) :
    (linspace a b n).getLast? = some b := by
  have hk : n - 1 < n := by omega
  rw [List.getLast?_eq_getElem?, linspace_length, linspace_getElem a b hk]
  congr 1
  have hcast : ((n - 1 : ℕ) : ℚ) = (n : ℚ) - 1 := by
    push_cast [show (1 : ℕ) ≤ n by omega]
    ring
  rw [hcast]
  have hne : ((n : ℚ) - 1) ≠ 0 := by
    have : (2 : ℚ) ≤ (n : ℚ) := by exact_mod_cast h2
    intro hc
    nlinarith
  field_simp

/-- Counterexample to C3: the axis `(0, 5/2, 1)` satisfies `max > min` and
`step > 0`, `centers` succeeds with count `round(5/2) = 2` and the list
`[1/2, 2]` — whose consecutive elements are separated by `3/2`, not by the
step `1`. -/
theorem claim_C3_counterexample :
    (0 : ℚ) < 5/2 ∧ (0 : ℚ) < 1
    ∧ centers 0 (5/2) 1 = some ([1/2, 2], 2)
    ∧ ¬ List.Chain' (fun x y : ℚ => y - x = 1) [(1/2 : ℚ), 2] := by
  have hr : roundHalfEven (((5/2 : ℚ) - 0) / 1) = 2 := by
    norm_num [roundHalfEven]
  refine ⟨by norm_num, by norm_num, ?_, ?_⟩
  · simp only [centers]
    rw [hr, if_neg (by omega)]
    have hl : linspace (0 + (1 : ℚ)/2) (5/2 - 1/2) ((2 : ℤ).toNat) = [1/2, 2] := by
      show linspace (0 + (1 : ℚ)/2) (5/2 - 1/2) 2 = [1/2, 2]
      unfold linspace
      norm_num [List.range_succ]
    rw [hl]
  · intro hch
    rcases List.chain'_cons.mp hch with ⟨h12, -⟩
    norm_num at h12

/-- C3 amended: when additionally the extent `max - min` is an exact
positive multiple `n` of the step (the non-integral ratio case is what the
counterexample exhibits), `centers` returns exactly `n` values, strictly
increasing, consecutive elements separated by exactly `step`, starting at
`min + step/2`. -/
theorem claim_C3_amended (vmin vmax dv : ℚ) (n : ℕ) (h1 : 1 ≤ n)
    (h2 : vmax - vmin = n * dv) (hdv : 0 < dv) :
    ∃ l, centers vmin vmax dv = some (l, (n : ℤ))
      ∧ l.length = n
      ∧ l.head? = some (vmin + dv/2)
      ∧ List.Chain' (fun x y => y - x = dv) l
      ∧ List.Chain' (· < ·) l := by
  refine ⟨_, centers_eq vmin vmax dv n h1 h2 (ne_of_gt hdv), by simp,
    prog_head _ _ h1, prog_chain_step _ _ _, prog_chain_lt _ _ _ hdv⟩

/-- Witness for the amended C3 at the axis `(0, 3, 1)`. -/
theorem claim_C3_amended_witness :
    ∃ l, centers 0 3 1 = some (l, ((3 : ℕ) : ℤ))
      ∧ l.length = 3
      ∧ l.head? = some (0 + (1 : ℚ)/2)
      ∧ List.Chain' (fun x y => y - x = (1 : ℚ)) l
      ∧ List.Chain' (· < ·) l :=
  claim_C3_amended 0 3 1 3 (by norm_num) (by norm_num) (by norm_num)

/-- Counterexample to C7: for the axis `(0, 2/5, 1)` the count
`round(2/5) = 0` is non-positive, yet `centers` does not fail — it returns
the empty list and count 0 (numpy's `linspace` accepts a zero sample
count). -/
theorem claim_C7_counterexample :
    roundHalfEven (((2/5 : ℚ) - 0) / 1) ≤ 0
    ∧ centers 0 (2/5) 1 = some ([], 0) := by
  have hr : roundHalfEven (((2/5 : ℚ) - 0) / 1) = 0 := by
    norm_num [roundHalfEven]
  refine ⟨by rw [hr], ?_⟩
  simp only [centers]
  rw [hr, if_neg (by omega)]
  rfl

/-- C7 amended: for a nonzero step (a zero step diverges earlier, in the
ratio itself), `centers` fails (returns no value: numpy rejects a negative
sample count) exactly for a negative count; a zero count silently yields
the empty sequence with count 0, with no `InvalidDomain` failure. -/
theorem claim_C7_amended (vmin vmax dv : ℚ) (_hdv : dv ≠ 0) :
    (roundHalfEven ((vmax - vmin) / dv) < 0 → centers vmin vmax dv = none)
    ∧ (roundHalfEven ((vmax - vmin) / dv) = 0 →
        centers vmin vmax dv = some ([], 0)) := by
  constructor
  · intro h
    simp only [centers]
    rw [if_pos h]
  · intro h
    simp only [centers]
    rw [h, if_neg (by omega)]
    rfl

/-- Witness for the amended C7: a negative count (axis `(0, -10, 1)`) fails,
a zero count (axis `(0, 2/5, 1)`) returns the empty grid axis. -/
theorem claim_C7_amended_witness :
    centers 0 (-10) 1 = none ∧ centers 0 (2/5) 1 = some ([], 0) :=
  ⟨(claim_C7_amended 0 (-10) 1 (by norm_num)).1 (by norm_num [roundHalfEven]),
   (claim_C7_amended 0 (2/5) 1 (by norm_num)).2 (by norm_num [roundHalfEven])⟩

/-- C9: `centers(-65, 65, 1)` yields exactly 130 values, first `-64.5` and
last `64.5`; `centers(-180, 180, 1)` yields exactly 360 values, first
`-179.5`. -/
theorem claim_C9_concrete_axes :
    ∃ lat lon : List ℚ,
      centers (-65) 65 1 = some (lat, 130)
      ∧ lat.length = 130 ∧ lat.head? = some (-64.5) ∧ lat.getLast? = some 64.5
      ∧ centers (-180) 180 1 = some (lon, 360)
      ∧ lon.length = 360 ∧ lon.head? = some (-179.5) := by
  have e1 := centers_eq (-65) 65 1 130 (by norm_num) (by norm_num) (by norm_num)
  have e2 := centers_eq (-180) 180 1 360 (by norm_num) (by norm_num) (by norm_num)
  refine ⟨(List.range 130).map (fun (k : ℕ) => -65 + 1/2 + (k : ℚ) * 1),
          (List.range 360).map (fun (k : ℕ) => -180 + 1/2 + (k : ℚ) * 1),
          ?_, by simp, ?_, ?_, ?_, by simp, ?_⟩
  · rw [e1]
    norm_num
  · rw [prog_head _ _ (by norm_num)]
    norm_num
  · rw [prog_getLast _ _ (by norm_num)]
    norm_num
  · rw [e2]
    norm_num
  · rw [prog_head _ _ (by norm_num)]
    norm_num

/-- Counterexample to C10: for the axis `(0, 6/5, 1)` the count is
`round(6/5) = 1 ≥ 1`, but the single returned center is `1/2`, not
`max - step/2 = 7/10`: with one sample, `np.linspace` returns only its
start point. -/
theorem claim_C10_counterexample :
    (1 : ℤ) ≤ roundHalfEven (((6/5 : ℚ) - 0) / 1)
    ∧ centers 0 (6/5) 1 = some ([1/2], 1)
    ∧ ([(1/2 : ℚ)]).getLast? = some (1/2)
    ∧ (1/2 : ℚ) ≠ (6/5 : ℚ) - 1/2 := by
  have hr : roundHalfEven (((6/5 : ℚ) - 0) / 1) = 1 := by
    norm_num [roundHalfEven]
  refine ⟨by rw [hr], ?_, rfl, by norm_num⟩
  simp only [centers]
  rw [hr, if_neg (by omega)]
  have hl : linspace (0 + (1 : ℚ)/2) (6/5 - 1/2) ((1 : ℤ).toNat) = [1/2] := by
    show linspace (0 + (1 : ℚ)/2) (6/5 - 1/2) 1 = [1/2]
    unfold linspace
    norm_num [List.range_succ]
  rw [hl]

/-- C10 amended: whenever the rounded count is at least 2 — integral ratio
or not — the last element of `centers` equals `max - step/2` exactly (the
sequence is anchored to both endpoints, not generated by repeated
addition); with count 1 the single element is `min + step/2` instead, which
is what the counterexample exhibits. -/
theorem claim_C10_amended (vmin vmax dv : ℚ) (n : ℕ) (h2 : 2 ≤ n)
    (hr : roundHalfEven ((vmax - vmin) / dv) = (n : ℤ)) :
    ∃ l, centers vmin vmax dv = some (l, (n : ℤ))
      ∧ l.getLast? = some (vmax - dv/2) := by
  refine ⟨linspace (vmin + dv/2) (vmax - dv/2) n, ?_, linspace_getLast _ _ h2⟩
  simp only [centers]
  rw [hr, if_neg (by omega), Int.toNat_natCast]

/-- Witness for the amended C10 at the non-integral axis `(0, 5/2, 1)`:
count 2, last element `5/2 - 1/2 = 2`. -/
theorem claim_C10_amended_witness :
    ∃ l, centers 0 (5/2) 1 = some (l, ((2 : ℕ) : ℤ))
      ∧ l.getLast? = some ((5/2 : ℚ) - 1/2) :=
  claim_C10_amended 0 (5/2) 1 2 (by norm_num) (by norm_num [roundHalfEven])

/-- C4: the Sampler tries the keyword-style call first; exactly when that
call fails with the argument-signature mismatch (`TypeError`) it retries
once with the positional style, and that retry's outcome — value or error —
is returned as is; any other failure of the keyword call propagates
unchanged and never triggers the positional call. -/
theorem claim_C4_sampler_fallback (α : Type) (kw pos : Except PyErr α) :
    (∀ v, kw = .ok v → lt_lookup kw pos = .ok v)
    ∧ (kw = .error .typeError → lt_lookup kw pos = pos)
    ∧ (∀ c, kw = .error (.other c) → lt_lookup kw pos = .error (.other c)) := by
  refine ⟨?_, ?_, ?_⟩
  · intro v hv
    subst hv
    rfl
  · intro hv
    subst hv
    rfl
  · intro c hv
    subst hv
    rfl

/-- Witness for C4: the fallback fires on `TypeError` and a distinct error
propagates unchanged. -/
theorem claim_C4_sampler_fallback_witness :
    lt_lookup (α := ℕ) (.error .typeError) (.ok 5) = .ok 5
    ∧ lt_lookup (α := ℕ) (.error (.other 3)) (.ok 5) = .error (.other 3) :=
  ⟨(claim_C4_sampler_fallback ℕ (.error .typeError) (.ok 5)).2.1 rfl,
   (claim_C4_sampler_fallback ℕ (.error (.other 3)) (.ok 5)).2.2 3 rfl⟩

/-- C6: the encoder fails exactly when a metadata field exceeds its declared
width (`nlat`/`nlon` beyond 65535 or `scale` beyond 255), the failure is the
`EncodingOverflow` error, and an error result carries no output bytes
(the header is assembled before anything is written). -/
theorem claim_C6_encoder_overflow (meta : GridMeta) (payload : List ℕ) :
    write_bin meta payload =
      if meta.nlat < 65536 ∧ meta.nlon < 65536 ∧ meta.scale < 256
      then .ok (headerList meta ++ payload)
      else .error .encodingOverflow := by
  by_cases h : meta.nlat < 65536 ∧ meta.nlon < 65536 ∧ meta.scale < 256
  · rw [if_pos h]
    exact write_bin_ok meta payload h.1 h.2.1 h.2.2
  · rw [if_neg h]
    exact write_bin_error meta payload h

/-- C1: on any in-range metadata, the encoder emits exactly the §6 byte
stream: ASCII "TLB2" at bytes 0-3, little-endian `uint16` 2 at bytes 4-5,
`nlat` at 6-7, `nlon` at 8-9, `scale` at byte 10, 0 at byte 11, the four
4-byte `float32` fields at 12-27, and for all `m < 12`, `i < nlat`,
`j < nlon` the byte at `28 + m*nlat*nlon + i*nlon + j` is the quantized
value `build_grid` stored for `(m, i, j)`. -/
theorem claim_C1_layout (meta : GridMeta) (sample : ℕ → ℚ → ℚ → ℚ) (lats lons : List ℚ)
    (h1 : meta.nlat < 65536) (h2 : meta.nlon < 65536) (h3 : meta.scale < 256) :
    ∃ out,
      write_bin meta (payloadBytes meta.nlat meta.nlon (volumeOf sample lats lons)) = .ok out
      ∧ out[0]? = some 84 ∧ out[1]? = some 76 ∧ out[2]? = some 66 ∧ out[3]? = some 50
      ∧ out[4]? = some 2 ∧ out[5]? = some 0
      ∧ out[6]? = some (meta.nlat % 256) ∧ out[7]? = some (meta.nlat / 256)
      ∧ out[8]? = some (meta.nlon % 256) ∧ out[9]? = some (meta.nlon / 256)
      ∧ out[10]? = some meta.scale ∧ out[11]? = some 0
      ∧ (∀ t, t < 4 →
          out[12 + t]? = (pack_f32le meta.lat0bits)[t]?
          ∧ out[16 + t]? = (pack_f32le meta.lon0bits)[t]?
          ∧ out[20 + t]? = (pack_f32le meta.dlatbits)[t]?
          ∧ out[24 + t]? = (pack_f32le meta.dlonbits)[t]?)
      ∧ ∀ m i j, m < 12 → i < meta.nlat → j < meta.nlon →
          out[28 + (m * (meta.nlat * meta.nlon) + i * meta.nlon + j)]? =
            some (volumeOf sample lats lons m i j) := by
  have hleft : ∀ idx : ℕ, idx < 28 →
      (headerList meta ++ payloadBytes meta.nlat meta.nlon (volumeOf sample lats lons))[idx]?
        = (headerList meta)[idx]? := by
    intro idx hidx
    exact List.getElem?_append_left (by rw [headerList_length]; omega)
  refine ⟨headerList meta ++ payloadBytes meta.nlat meta.nlon (volumeOf sample lats lons),
    write_bin_ok _ _ h1 h2 h3,
    ?_, ?_, ?_, ?_, ?_, ?_, ?_, ?_, ?_, ?_, ?_, ?_, ?_, ?_⟩
  · rw [hleft 0 (by omega)]; rfl
  · rw [hleft 1 (by omega)]; rfl
  · rw [hleft 2 (by omega)]; rfl
  · rw [hleft 3 (by omega)]; rfl
  · rw [hleft 4 (by omega)]; rfl
  · rw [hleft 5 (by omega)]; rfl
  · rw [hleft 6 (by omega)]; rfl
  · rw [hleft 7 (by omega)]; rfl
  · rw [hleft 8 (by omega)]; rfl
  · rw [hleft 9 (by omega)]; rfl
  · rw [hleft 10 (by omega)]; rfl
  · rw [hleft 11 (by omega)]; rfl
  · intro t ht
    interval_cases t <;> exact ⟨by rw [hleft _ (by omega)]; rfl, by rw [hleft _ (by omega)]; rfl,
      by rw [hleft _ (by omega)]; rfl, by rw [hleft _ (by omega)]; rfl⟩
  · intro m i j hm hi hj
    rw [List.getElem?_append_right (by rw [headerList_length]; omega), headerList_length]
    have hidx : 28 + (m * (meta.nlat * meta.nlon) + i * meta.nlon + j) - 28
        = m * (meta.nlat * meta.nlon) + i * meta.nlon + j := by omega
    rw [hidx]
    exact payloadBytes_getElem meta.nlat meta.nlon _ hm hi hj

/-- Witness for C1 on a small 2×2 grid with a concrete sampler. -/
theorem claim_C1_layout_witness :
    ∃ out,
      write_bin ⟨2, 2, 20, 1, 2, 3, 4⟩
          (payloadBytes 2 2
            (volumeOf (fun m lat lon => (m : ℚ) + lat + lon) [1/2, 3/2] [0, 1]))
        = .ok out
      ∧ out[4]? = some 2 := by
  obtain ⟨out, hok, -, -, -, -, h4, -⟩ :=
    claim_C1_layout ⟨2, 2, 20, 1, 2, 3, 4⟩
      (fun m lat lon => (m : ℚ) + lat + lon) [1/2, 3/2] [0, 1]
      (by decide) (by decide) (by decide)
  exact ⟨out, hok, h4⟩

/-- C5: encoding a QuantizedGrid whose metadata fields are within their
declared widths and whose byte volume has length `12 * nlat * nlon`, then
decoding per the §6 table, reproduces every metadata field and the byte
volume exactly. -/
theorem claim_C5_roundtrip (meta : GridMeta) (payload : List ℕ)
    (h1 : meta.nlat < 65536) (h2 : meta.nlon < 65536) (h3 : meta.scale < 256)
    (h4 : meta.lat0bits < 4294967296) (h5 : meta.lon0bits < 4294967296)
    (h6 : meta.dlatbits < 4294967296) (h7 : meta.dlonbits < 4294967296)
    (hlen : payload.length = 12 * (meta.nlat * meta.nlon)) :
    ∃ out, write_bin meta payload = .ok out
      ∧ decode_bin out = some (meta, payload) :=
  ⟨headerList meta ++ payload, write_bin_ok meta payload h1 h2 h3,
   decode_headerList meta payload h1 h2 h3 h4 h5 h6 h7 hlen⟩

/-- Witness for C5 on a 1×1 grid. -/
theorem claim_C5_roundtrip_witness :
    ∃ out, write_bin ⟨1, 1, 20, 5, 6, 7, 8⟩ (List.replicate 12 9) = .ok out
      ∧ decode_bin out = some (⟨1, 1, 20, 5, 6, 7, 8⟩, List.replicate 12 9) :=
  claim_C5_roundtrip ⟨1, 1, 20, 5, 6, 7, 8⟩ (List.replicate 12 9)
    (by decide) (by decide) (by decide) (by decide) (by decide) (by decide) (by decide)
    (by decide)

/-- Counterexample to C8: on the non-finite input `+∞` the quantizer does
not signal any failure — `np.clip` saturates `+∞` to 255 and the pipeline
silently yields the byte 255. -/
theorem claim_C8_counterexample : quantizeF FVal.inf = some 255 := by
  show fvalCastU8 (fvalRint (FVal.fin 255)) = some 255
  have hr : roundHalfEven (255 : ℚ) = 255 := by
    norm_num [roundHalfEven]
  simp only [fvalRint, fvalCastU8, hr]
  rw [if_pos (by constructor <;> norm_num)]
  rfl

/-- C8 amended: infinite inputs are silently saturated by the clip
(`+∞ ↦ 255`, `-∞ ↦ 0`) and produce a `uint8` with no failure signal; the
`uint8` cast of NaN is platform-dependent (modelled as unspecified). -/
theorem claim_C8_amended :
    quantizeF FVal.ninf = some 0 ∧ quantizeF FVal.nan = none
    ∧ quantizeF FVal.inf = some 255 := by
  refine ⟨?_, rfl, ?_⟩
  · show fvalCastU8 (fvalRint (FVal.fin 0)) = some 0
    have hr : roundHalfEven (0 : ℚ) = 0 := by
      norm_num [roundHalfEven]
    simp only [fvalRint, fvalCastU8, hr]
    rw [if_pos (by constructor <;> norm_num)]
    norm_num
  · show fvalCastU8 (fvalRint (FVal.fin 255)) = some 255
    have hr : roundHalfEven (255 : ℚ) = 255 := by
      norm_num [roundHalfEven]
    simp only [fvalRint, fvalCastU8, hr]
    rw [if_pos (by constructor <;> norm_num)]
    rfl

end TLGrid
